import Mathlib

/-!
A verification development for the CMNN photometric-redshift estimator of the
leave-one-out notebook (src/photoz/CMNN_Estimator/leave-one-out_method.ipynb).

The notebook computes, for each query galaxy, a Mahalanobis-like color distance
to every galaxy of the sample with numpy float arithmetic (np.nansum skips NaN
entries), counts degrees of freedom through a self-ratio trick, looks up a
chi-square threshold table built from scipy's chi2.ppf, selects the CMNN subset
with 0.0001 cutoffs, and writes a photo-z estimate and uncertainty per galaxy.

Float values are embedded as an inductive type over the rationals with the
special values NaN and plus or minus infinity, and the numpy operations used by
the notebook (subtraction, squaring, division, nansum, comparisons) are
translated with their IEEE special-value behavior.  The external collaborators
scipy.stats.chi2.ppf, np.std and np.random.choice are parameters of the
embedded pipeline; theorems that need facts about them take those facts as
hypotheses and discharge them on concrete instances.
-/

namespace CMNN

/-- A double-precision value as handled by the notebook's numpy code: a finite
value (embedded as a rational), NaN, or one of the two infinities. -/
inductive F where
  | nan : F
  | pinf : F
  | ninf : F
  | fin : ℚ → F
deriving DecidableEq

/-- IEEE negation. -/
def fneg : F → F
  | .nan => .nan
  | .pinf => .ninf
  | .ninf => .pinf
  | .fin a => .fin (-a)

/-- IEEE addition: NaN propagates, opposite infinities give NaN. -/
def fadd : F → F → F
  | .nan, _ => .nan
  | _, .nan => .nan
  | .pinf, .ninf => .nan
  | .ninf, .pinf => .nan
  | .pinf, _ => .pinf
  | _, .pinf => .pinf
  | .ninf, _ => .ninf
  | _, .ninf => .ninf
  | .fin a, .fin b => .fin (a + b)

/-- IEEE subtraction. -/
def fsub (x y : F) : F := fadd x (fneg y)

/-- IEEE multiplication: NaN propagates, infinity times zero gives NaN. -/
def fmul : F → F → F
  | .nan, _ => .nan
  | _, .nan => .nan
  | .pinf, .pinf => .pinf
  | .pinf, .ninf => .ninf
  | .ninf, .pinf => .ninf
  | .ninf, .ninf => .pinf
  | .pinf, .fin b => if 0 < b then .pinf else if b < 0 then .ninf else .nan
  | .fin a, .pinf => if 0 < a then .pinf else if a < 0 then .ninf else .nan
  | .ninf, .fin b => if 0 < b then .ninf else if b < 0 then .pinf else .nan
  | .fin a, .ninf => if 0 < a then .ninf else if a < 0 then .pinf else .nan
  | .fin a, .fin b => .fin (a * b)

/-- IEEE division (signed zeros ignored: a division by zero is treated as a
division by positive zero, which is what the squared denominators of the
notebook produce): NaN propagates, infinity over infinity and zero over zero
give NaN, a nonzero finite value over zero gives a signed infinity. -/
def fdiv : F → F → F
  | .nan, _ => .nan
  | _, .nan => .nan
  | .pinf, .pinf => .nan
  | .pinf, .ninf => .nan
  | .ninf, .pinf => .nan
  | .ninf, .ninf => .nan
  | .pinf, .fin b => if b < 0 then .ninf else .pinf
  | .ninf, .fin b => if b < 0 then .pinf else .ninf
  | .fin _, .pinf => .fin 0
  | .fin _, .ninf => .fin 0
  | .fin a, .fin b =>
      if b = 0 then (if a = 0 then .nan else if 0 < a then .pinf else .ninf)
      else .fin (a / b)

/-- Squaring, as the notebook's `**2`. -/
def fsq (x : F) : F := fmul x x

/-- IEEE comparison `<=`: any comparison with NaN is false. -/
def fle : F → F → Bool
  | .nan, _ => false
  | _, .nan => false
  | .ninf, _ => true
  | _, .pinf => true
  | .pinf, _ => false
  | _, .ninf => false
  | .fin a, .fin b => decide (a ≤ b)

/-- IEEE comparison `<`: any comparison with NaN is false. -/
def flt : F → F → Bool
  | .nan, _ => false
  | _, .nan => false
  | .ninf, .ninf => false
  | .pinf, .pinf => false
  | .ninf, _ => true
  | _, .pinf => true
  | .pinf, _ => false
  | _, .ninf => false
  | .fin a, .fin b => decide (a < b)

/-- Whether a value is finite (present, in the missing-data sense). -/
def isFin : F → Bool
  | .fin _ => true
  | _ => false

/-- The rational carried by a finite value, zero for the special values. -/
def finVal : F → ℚ
  | .fin a => a
  | _ => 0

/-- Accumulating loop of np.nansum: NaN summands are replaced by zero. -/
def nansumAux : F → List F → F
  | acc, [] => acc
  | acc, x :: l => nansumAux (fadd acc (if x = .nan then .fin 0 else x)) l

/-- np.nansum over a list of values: treat NaNs as zero and sum the rest. -/
def nansum (l : List F) : F := nansumAux (.fin 0) l

/-- One galaxy as consumed by the estimation loop: its row of the five-column
color array `data_c`, its row of the color-uncertainty array `data_ce` (either
may hold NaN for bands undetected in the catalog), and its true redshift from
`data_tz`. -/
structure Galaxy where
  c : Fin 5 → F
  ce : Fin 5 → F
  tz : ℚ

/-- Column k of the query row of DM, before the self overwrite:
`( data_c[i,k] - data_c[j,k] )**2 / data_ce[i,k]**2`. -/
def dmterm (q r : Galaxy) (k : Fin 5) : F :=
  fdiv (fsq (fsub (q.c k) (r.c k))) (fsq (q.ce k))

/-- `DM[j] = np.nansum( (data_c[i,:] - data_c[j,:])**2 / data_ce[i,:]**2 )`
for query i, reference j (no self overwrite yet). -/
def pairDM (q r : Galaxy) : F := nansum (List.ofFn (dmterm q r))

/-- Column k of the DOF self-ratio trick:
`( data_c[i,k]**2 + data_c[j,k]**2 + 1.0 ) / ( data_c[i,k]**2 + data_c[j,k]**2 + 1.0 )`. -/
def dofterm (q r : Galaxy) (k : Fin 5) : F :=
  fdiv (fadd (fadd (fsq (q.c k)) (fsq (r.c k))) (.fin 1))
       (fadd (fadd (fsq (q.c k)) (fsq (r.c k))) (.fin 1))

/-- The float nansum underlying `DOF[j]`. -/
def dofSum (q r : Galaxy) : F := nansum (List.ofFn (dofterm q r))

/-- `DOF[j] = np.nansum( ..., dtype='int' )`: the summands are exactly 0.0 or
1.0, so numpy's integer accumulation agrees with the floor of the float sum. -/
def DOFi (q r : Galaxy) : ℤ :=
  match dofSum q r with
  | .fin a => ⌊a⌋
  | _ => 0

/-- The number of color dimensions in which both galaxies have a finite
(present) color. -/
def countValid (q r : Galaxy) : ℕ :=
  (Finset.univ.filter (fun k : Fin 5 => isFin (q.c k) && isFin (r.c k))).card

/-- `cmnn_thresh_table`: entry d is chi2.ppf(cmnn_ppf, d) for d in range(6),
then entry 0 is overwritten with exactly 0.0.  The external scipy percent
point function is the parameter `ppf`. -/
def cmnn_thresh_table (ppf : ℕ → ℚ) (d : ℕ) : ℚ :=
  if d = 0 then 0 else ppf d

/-- `data_th`: a zero-initialized array; the loop `for d in range(6)` stores
`cmnn_thresh_table[d]` into every entry whose DOF equals d. -/
def data_th (table : ℕ → ℚ) (dof : ℤ) : ℚ :=
  (List.range 6).foldl (fun acc d => if dof = Int.ofNat d then table d else acc) 0

/-- Placeholder galaxy used for out-of-range list access (never reached when
indices come from `List.range gs.length`). -/
def junkGalaxy : Galaxy := ⟨fun _ => .nan, fun _ => .nan, 0⟩

/-- The sample galaxy at index j. -/
def gAt (gs : List Galaxy) (j : ℕ) : Galaxy := gs.getD j junkGalaxy

/-- `data_tz[j]`: the true redshift of the sample galaxy at index j. -/
def tzAt (gs : List Galaxy) (j : ℕ) : ℚ := (gAt gs j).tz

/-- The DM row of query i after the self-exclusion overwrite `DM[i] = 99.9`. -/
def DMq (gs : List Galaxy) (i j : ℕ) : F :=
  if j = i then .fin (999/10) else pairDM (gAt gs i) (gAt gs j)

/-- The DOF row of query i (not overwritten). -/
def DOFq (gs : List Galaxy) (i j : ℕ) : ℤ := DOFi (gAt gs i) (gAt gs j)

/-- The per-reference threshold for query i: `data_th[j]`. -/
def thq (table : ℕ → ℚ) (gs : List Galaxy) (i j : ℕ) : ℚ :=
  data_th table (DOFq gs i j)

/-- The CMNN subset of query i:
`index = np.where( (DOF >= cmnn_minNclr) & (data_th > 0.00010) &
(DM > 0.00010) & (DM <= data_th) )[0]`. -/
def cmnnIndex (table : ℕ → ℚ) (gs : List Galaxy) (minD : ℤ) (i : ℕ) : List ℕ :=
  (List.range gs.length).filter (fun j =>
    decide (minD ≤ DOFq gs i j) && decide ((1 : ℚ)/10000 < thq table gs i j) &&
    flt (.fin (1/10000)) (DMq gs i j) && fle (DMq gs i j) (.fin (thq table gs i j)))

/-- The body of one loop iteration: the pair written into
`(data_pz[i], data_pze[i])`.  A nonempty subset yields the true redshift of a
randomly chosen member (`np.random.choice`, parameter `pick`) and the standard
deviation of the subset redshifts (`np.std`, parameter `std`); an empty subset
yields `float('nan')` in both fields. -/
def estimateAt (table : ℕ → ℚ) (std : List ℚ → ℚ) (pick : List ℕ → ℕ)
    (gs : List Galaxy) (minD : ℤ) (i : ℕ) : F × F :=
  let index := cmnnIndex table gs minD i
  if 0 < index.length then
    (.fin (tzAt gs (pick index)), .fin (std (index.map (tzAt gs))))
  else (.nan, .nan)

/-- Final contents of the output arrays `(data_pz, data_pze)`: both are
initialized to -1.0 over the whole sample and the loop `for i in range(Ncalc)`
overwrites the first Ncalc entries with the estimates. -/
def runDriver (table : ℕ → ℚ) (std : List ℚ → ℚ) (pick : List ℕ → ℕ)
    (gs : List Galaxy) (minD : ℤ) (Ncalc : ℕ) : List (F × F) :=
  (List.range gs.length).map (fun j =>
    if j < Ncalc then estimateAt table std pick gs minD j
    else (.fin (-1), .fin (-1)))

/-- Convenience constructor for a color row from a five-element list. -/
def mkc (l : List F) : Fin 5 → F := fun k => l.getD k F.nan

/-- The printed chi2.ppf values for cmnn_ppf = 0.68 (to three decimals),
standing in for the external scipy call on the default configuration. -/
def ppf068 : ℕ → ℚ := fun d =>
  ([0, 989/1000, 2279/1000, 3506/1000, 4695/1000, 5861/1000] : List ℚ).getD d 0

/-- The threshold table of the default configuration. -/
def table068 : ℕ → ℚ := cmnn_thresh_table ppf068

/-- A degenerate stand-in for np.std (its value is irrelevant to the control
flow being checked; the real np.std is nonnegative, which is all the theorems
assume). -/
def std0 : List ℚ → ℚ := fun _ => 0

/-- A deterministic stand-in for np.random.choice: take the first entry. -/
def pick0 : List ℕ → ℕ := fun l => l.headD 0

/-! Concrete galaxies and samples used to instantiate the theorems below. -/

/-- A galaxy with all five colors present and equal to zero, all color
uncertainties one. -/
def gZero : Galaxy := ⟨fun _ => .fin 0, fun _ => .fin 1, 1/2⟩

/-- A galaxy at color distance 1/40000 from `gZero` (first color 1/200). -/
def gNear : Galaxy := ⟨mkc [.fin (1/200), .fin 0, .fin 0, .fin 0, .fin 0], fun _ => .fin 1, 2⟩

/-- A galaxy at color distance 1/100 from `gZero` (first color 1/10). -/
def gClose : Galaxy := ⟨mkc [.fin (1/10), .fin 0, .fin 0, .fin 0, .fin 0], fun _ => .fin 1, 2⟩

/-- A galaxy at color distance 1 from `gZero` (first color 1). -/
def gOne : Galaxy := ⟨mkc [.fin 1, .fin 0, .fin 0, .fin 0, .fin 0], fun _ => .fin 1, 2⟩

/-- A query galaxy whose first color uncertainty is exactly zero. -/
def gZeroErr : Galaxy := ⟨fun _ => .fin 0, mkc [.fin 0, .fin 1, .fin 1, .fin 1, .fin 1], 1/2⟩

/-- A galaxy with a missing second color. -/
def gMissA : Galaxy := ⟨mkc [.fin 1, .nan, .fin 0, .fin 2, .fin 0], fun _ => .fin 1, 1/2⟩

/-- A galaxy with a missing third color. -/
def gMissB : Galaxy := ⟨mkc [.fin 0, .fin 3, .nan, .fin 1, .fin 0], fun _ => .fin 1, 1⟩

/-- Same presence mask as `gMissA`, different numeric colors. -/
def gMissA2 : Galaxy := ⟨mkc [.fin 7, .nan, .fin 5, .fin 1, .fin 9], fun _ => .fin 1, 3⟩

/-- Same presence mask as `gMissB`, different numeric colors. -/
def gMissB2 : Galaxy := ⟨mkc [.fin 2, .fin 8, .nan, .fin 3, .fin 4], fun _ => .fin 1, 4⟩

/-- A galaxy with all colors one and uncertainties two (distance asymmetry). -/
def gWide : Galaxy := ⟨fun _ => .fin 1, fun _ => .fin 2, 1⟩

/-- A one-galaxy sample. -/
def gsSingle : List Galaxy := [gZero]

/-- The sample exhibiting the sub-cutoff distance 1/40000. -/
def gsNear : List Galaxy := [gZero, gNear]

/-- The sample with a qualifying neighbor at distance 1/100. -/
def gsClose : List Galaxy := [gZero, gClose]

/-- The sample with a qualifying neighbor at distance 1. -/
def gsOne : List Galaxy := [gZero, gOne]

end CMNN

attribute [local semireducible] Rat.add Rat.mul Rat.inv Rat.sub

namespace CMNN

/-! Helper lemmas about the embedded numpy arithmetic. -/

/-- The accumulating nansum over values that are each finite or NaN is finite,
and equals the accumulator plus the sum of the finite values (NaN contributing
zero, exactly as np.nansum skips it). -/
lemma nansumAux_fin (l : List F) (h : ∀ x ∈ l, (∃ a : ℚ, x = F.fin a) ∨ x = F.nan)
    (s : ℚ) : nansumAux (F.fin s) l = F.fin (s + (l.map finVal).sum) := by
  induction l generalizing s with
  | nil => simp [nansumAux]
  | cons x t ih =>
    have hx := h x (List.mem_cons_self x t)
    have ht : ∀ y ∈ t, (∃ a : ℚ, y = F.fin a) ∨ y = F.nan :=
      fun y hy => h y (List.mem_cons_of_mem x hy)
    rcases hx with ⟨a, rfl⟩ | rfl
    · rw [nansumAux, if_neg (by simp)]
      rw [show fadd (F.fin s) (F.fin a) = F.fin (s + a) from rfl, ih ht]
      simp [finVal, add_assoc]
    · rw [nansumAux, if_pos rfl]
      rw [show fadd (F.fin s) (F.fin 0) = F.fin (s + 0) from rfl, ih ht]
      simp [finVal]

/-- np.nansum over finite-or-NaN values gives the finite sum of the present
values. -/
lemma nansum_fin (l : List F) (h : ∀ x ∈ l, (∃ a : ℚ, x = F.fin a) ∨ x = F.nan) :
    nansum l = F.fin ((l.map finVal).sum) := by
  have := nansumAux_fin l h 0
  simpa [nansum] using this

/-- Once the accumulator is positive infinity it stays positive infinity as
long as no summand is negative infinity. -/
lemma nansumAux_pinf (l : List F) (h : ∀ x ∈ l, x ≠ F.ninf) :
    nansumAux F.pinf l = F.pinf := by
  induction l with
  | nil => rfl
  | cons x t ih =>
    have hx := h x (List.mem_cons_self x t)
    have step : fadd F.pinf (if x = F.nan then F.fin 0 else x) = F.pinf := by
      by_cases hn : x = F.nan
      · rw [if_pos hn]; rfl
      · rw [if_neg hn]
        cases x with
        | nan => exact absurd rfl hn
        | pinf => rfl
        | ninf => exact absurd rfl hx
        | fin a => rfl
    rw [nansumAux, step]
    exact ih (fun y hy => h y (List.mem_cons_of_mem x hy))

/-- np.nansum of a list that contains positive infinity and no negative
infinity is positive infinity. -/
lemma nansumAux_fin_pinf (l : List F) : ∀ s : ℚ, (∀ x ∈ l, x ≠ F.ninf) →
    F.pinf ∈ l → nansumAux (F.fin s) l = F.pinf := by
  induction l with
  | nil => intro s _ hp; simp at hp
  | cons x t ih =>
    intro s h hp
    have ht : ∀ y ∈ t, y ≠ F.ninf := fun y hy => h y (List.mem_cons_of_mem x hy)
    by_cases hx : x = F.pinf
    · subst hx
      rw [nansumAux, if_neg (by simp),
        show fadd (F.fin s) F.pinf = F.pinf from rfl]
      exact nansumAux_pinf t ht
    · have hxm : F.pinf ∈ t := by
        rcases List.mem_cons.mp hp with h1 | h1
        · exact absurd h1.symm hx
        · exact h1
      cases x with
      | nan =>
        rw [nansumAux, if_pos rfl, show fadd (F.fin s) (F.fin 0) = F.fin (s + 0) from rfl]
        exact ih (s + 0) ht hxm
      | pinf => exact absurd rfl hx
      | ninf => exact absurd rfl (h F.ninf (List.mem_cons_self F.ninf t))
      | fin a =>
        rw [nansumAux, if_neg (by simp),
          show fadd (F.fin s) (F.fin a) = F.fin (s + a) from rfl]
        exact ih (s + a) ht hxm

/-- np.nansum of a list containing positive infinity and no negative infinity. -/
lemma nansum_pinf (l : List F) (h : ∀ x ∈ l, x ≠ F.ninf) (hp : F.pinf ∈ l) :
    nansum l = F.pinf := nansumAux_fin_pinf l 0 h hp

/-- Finiteness as an existential. -/
lemma isFin_iff {x : F} : isFin x = true ↔ ∃ a : ℚ, x = F.fin a := by
  cases x <;> simp [isFin]

/-- The self-ratio trick of the DOF computation, column by column: a column in
which both colors are finite contributes exactly 1.0, any other column
contributes NaN (which np.nansum then skips).  No hypotheses: infinite colors
also make the ratio NaN (infinity over infinity). -/
lemma dofterm_eq (q r : Galaxy) (k : Fin 5) :
    dofterm q r k = if isFin (q.c k) && isFin (r.c k) then F.fin 1 else F.nan := by
  cases hq : q.c k <;> cases hr : r.c k <;>
    simp only [dofterm, hq, hr, isFin, fsq, fmul, fadd, fdiv, Bool.and_self,
      Bool.and_true, Bool.true_and, Bool.and_false, Bool.false_and, if_true,
      if_false, Bool.false_eq_true, reduceIte]
  case fin.fin a b =>
    have hs : a * a + b * b + 1 ≠ 0 := by nlinarith [mul_self_nonneg a, mul_self_nonneg b]
    rw [if_neg hs, div_self hs]

/-- The float value of `DOF[j]` is the finite count of columns present in both
galaxies. -/
lemma dofSum_eq (q r : Galaxy) : dofSum q r = F.fin (countValid q r) := by
  have hterms : ∀ x ∈ List.ofFn (dofterm q r), (∃ a : ℚ, x = F.fin a) ∨ x = F.nan := by
    intro x hx
    rw [List.mem_ofFn] at hx
    obtain ⟨k, rfl⟩ := hx
    rw [dofterm_eq]
    by_cases h : (isFin (q.c k) && isFin (r.c k)) = true
    · exact Or.inl ⟨1, by rw [if_pos h]⟩
    · exact Or.inr (by rw [if_neg h])
  rw [dofSum, nansum_fin _ hterms, List.map_ofFn, List.sum_ofFn]
  congr 1
  have hterm : ∀ k : Fin 5, (finVal ∘ dofterm q r) k =
      if (isFin (q.c k) && isFin (r.c k)) = true then (1 : ℚ) else 0 := by
    intro k
    simp only [Function.comp_apply, dofterm_eq]
    by_cases h : (isFin (q.c k) && isFin (r.c k)) = true
    · rw [if_pos h, if_pos h]; rfl
    · rw [if_neg h, if_neg h]; rfl
  rw [Finset.sum_congr rfl (fun k _ => hterm k), Finset.sum_boole, countValid]

/-- `DOF[j]` as the integer array entry. -/
lemma DOFi_eq (q r : Galaxy) : DOFi q r = (countValid q r : ℤ) := by
  simp [DOFi, dofSum_eq, Int.floor_natCast]

/-- The embedded IEEE addition is commutative. -/
lemma fadd_comm (x y : F) : fadd x y = fadd y x := by
  cases x <;> cases y <;> simp [fadd, add_comm]

/-- Each DOF column is symmetric in the two galaxies. -/
lemma dofterm_symm (q r : Galaxy) (k : Fin 5) : dofterm q r k = dofterm r q k := by
  unfold dofterm
  rw [fadd_comm (fsq (q.c k)) (fsq (r.c k))]

/-- The DOF sum is symmetric in the two galaxies. -/
lemma dofSum_symm (q r : Galaxy) : dofSum q r = dofSum r q := by
  have h : dofterm q r = dofterm r q := funext (dofterm_symm q r)
  rw [dofSum, dofSum, h]

/-- A valid column of the distance: both colors present and a nonzero query
uncertainty give the finite summand of the spec formula. -/
lemma dmterm_valid (q r : Galaxy) (k : Fin 5) (a b e : ℚ)
    (hq : q.c k = F.fin a) (hr : r.c k = F.fin b) (he : q.ce k = F.fin e)
    (he0 : e ≠ 0) : dmterm q r k = F.fin ((a - b)^2 / e^2) := by
  have hee : e * e ≠ 0 := mul_ne_zero he0 he0
  rw [dmterm, hq, hr, he]
  simp only [fsub, fneg, fadd, fsq, fmul, fdiv, if_neg hee]
  congr 1
  field_simp
  ring

/-- A column with a missing color on either side is NaN (and np.nansum skips
it). -/
lemma dmterm_nan (q r : Galaxy) (k : Fin 5) (h : q.c k = F.nan ∨ r.c k = F.nan) :
    dmterm q r k = F.nan := by
  rcases h with h | h
  · rw [dmterm, h]; cases r.c k <;> cases q.ce k <;> rfl
  · rw [dmterm, h]; cases q.c k <;> cases q.ce k <;> rfl

/-- No distance column is ever negative infinity when the colors are
finite-or-NaN (the numerator is a square). -/
lemma dmterm_ne_ninf (q r : Galaxy) (k : Fin 5)
    (hq : isFin (q.c k) = true ∨ q.c k = F.nan)
    (hr : isFin (r.c k) = true ∨ r.c k = F.nan) :
    dmterm q r k ≠ F.ninf := by
  rcases hq with hq | hq
  · rcases hr with hr | hr
    · obtain ⟨a, ha⟩ := isFin_iff.mp hq
      obtain ⟨b, hb⟩ := isFin_iff.mp hr
      rw [dmterm, ha, hb]
      have hnum : 0 ≤ (a + -b) * (a + -b) := mul_self_nonneg _
      cases hce : q.ce k with
      | nan => simp [fsub, fneg, fadd, fsq, fmul, fdiv]
      | pinf => simp [fsub, fneg, fadd, fsq, fmul, fdiv]
      | ninf => simp [fsub, fneg, fadd, fsq, fmul, fdiv]
      | fin e =>
        by_cases hee : e * e = 0
        · by_cases hc : (a + -b) * (a + -b) = 0
          · simp [fsub, fneg, fadd, fsq, fmul, fdiv, hee, hc]
          · have hpos : 0 < (a + -b) * (a + -b) := lt_of_le_of_ne hnum (Ne.symm hc)
            simp [fsub, fneg, fadd, fsq, fmul, fdiv, hee, hc, hpos]
        · simp [fsub, fneg, fadd, fsq, fmul, fdiv, hee]
    · rw [dmterm_nan q r k (Or.inr hr)]; simp
  · rw [dmterm_nan q r k (Or.inl hq)]; simp

/-- A zero query uncertainty in a column where the two colors are present and
differ makes that distance column positive infinity. -/
lemma dmterm_pinf (q r : Galaxy) (k : Fin 5) (a b : ℚ)
    (hq : q.c k = F.fin a) (hr : r.c k = F.fin b) (hab : a ≠ b)
    (hce : q.ce k = F.fin 0) : dmterm q r k = F.pinf := by
  rw [dmterm, hq, hr, hce]
  have h0 : a + -b ≠ 0 := fun h => hab (by linarith)
  have h1 : (a + -b) * (a + -b) ≠ 0 := mul_ne_zero h0 h0
  have h2 : 0 < (a + -b) * (a + -b) := lt_of_le_of_ne (mul_self_nonneg _) (Ne.symm h1)
  simp [fsub, fneg, fadd, fsq, fmul, fdiv, h1, h2]

/-- Every entry of `data_th` is either the initialization zero or a threshold
table entry of index at most five. -/
lemma data_th_cases (table : ℕ → ℚ) (dof : ℤ) :
    data_th table dof = 0 ∨ ∃ d : Fin 6, data_th table dof = table d := by
  rw [data_th, show List.range 6 = [0, 1, 2, 3, 4, 5] from rfl]
  simp only [List.foldl_cons, List.foldl_nil]
  split_ifs
  · exact Or.inr ⟨5, rfl⟩
  · exact Or.inr ⟨4, rfl⟩
  · exact Or.inr ⟨3, rfl⟩
  · exact Or.inr ⟨2, rfl⟩
  · exact Or.inr ⟨1, rfl⟩
  · exact Or.inr ⟨0, rfl⟩
  · exact Or.inl rfl

/-- When every threshold-table entry is below the sentinel distance 99.9, so is
every `data_th` entry. -/
lemma data_th_lt (table : ℕ → ℚ) (dof : ℤ)
    (htab : ∀ d : Fin 6, table d < 999/10) : data_th table dof < 999/10 := by
  rcases data_th_cases table dof with h | ⟨d, h⟩
  · rw [h]; norm_num
  · rw [h]; exact htab d

/-- The distance formula exactly as the spec states it (refinement target for
the distance computation): the sum over valid dimensions of
(c_q - c_r)^2 / e_q^2, a dimension being valid when both colors are present;
missing dimensions contribute nothing. -/
def specDM (q r : Galaxy) : ℚ :=
  ∑ k : Fin 5, if isFin (q.c k) && isFin (r.c k)
    then (finVal (q.c k) - finVal (r.c k))^2 / (finVal (q.ce k))^2 else 0

/-! Claim theorems. -/

/-- Claim C1, counterexample: in the sample `gsNear` the reference galaxy 1
satisfies all four conditions of the claimed index set (DOF at least minD,
positive threshold, strictly positive distance, distance at most threshold),
yet the selector produces the empty subset, because its distance 1/40000 fails
the source's strict cutoff `DM > 0.00010`. -/
theorem C1_counterexample :
    (5 ≤ DOFq gsNear 0 1 ∧ 0 < thq table068 gsNear 0 1 ∧
     flt (F.fin 0) (DMq gsNear 0 1) = true ∧
     fle (DMq gsNear 0 1) (F.fin (thq table068 gsNear 0 1)) = true) ∧
    cmnnIndex table068 gsNear 5 0 = [] := by decide

/-- Claim C1, amended: the CMNN subset is exactly the index set of references
whose DOF is at least minD, whose threshold exceeds 0.0001 (not 0), and whose
distance exceeds 0.0001 (not 0) while staying at most the threshold; the
distance compared is the row after the self overwrite. -/
theorem C1_subset_membership (table : ℕ → ℚ) (gs : List Galaxy) (minD : ℤ)
    (i j : ℕ) (hj : j < gs.length) :
    j ∈ cmnnIndex table gs minD i ↔
      (minD ≤ DOFq gs i j ∧ (1:ℚ)/10000 < thq table gs i j ∧
       flt (F.fin (1/10000)) (DMq gs i j) = true ∧
       fle (DMq gs i j) (F.fin (thq table gs i j)) = true) := by
  rw [cmnnIndex, List.mem_filter, List.mem_range]
  simp only [Bool.and_eq_true, decide_eq_true_eq]
  constructor
  · rintro ⟨-, ⟨⟨h1, h2⟩, h3⟩, h4⟩; exact ⟨h1, h2, h3, h4⟩
  · rintro ⟨h1, h2, h3, h4⟩; exact ⟨hj, ⟨⟨h1, h2⟩, h3⟩, h4⟩

/-- Claim C1, witness: a qualifying neighbor at distance 1 is selected. -/
theorem C1_subset_membership_witness : 1 ∈ cmnnIndex table068 gsOne 5 0 :=
  (C1_subset_membership table068 gsOne 5 0 1 (by decide)).mpr (by decide)

/-- Claim C2: whenever every entry the threshold table can assign is below the
sentinel 99.9 (which holds for chi2.ppf at any double-precision confidence
below one), the query galaxy is never a member of its own CMNN subset,
whatever the sample, the query index and the minimum-color parameter. -/
theorem C2_self_exclusion (table : ℕ → ℚ) (gs : List Galaxy) (minD : ℤ) (i : ℕ)
    (htab : ∀ d : Fin 6, table d < 999/10) :
    i ∉ cmnnIndex table gs minD i := by
  intro hmem
  rw [cmnnIndex, List.mem_filter] at hmem
  obtain ⟨-, hcond⟩ := hmem
  simp only [Bool.and_eq_true, decide_eq_true_eq] at hcond
  obtain ⟨⟨⟨h1, h2⟩, h3⟩, h4⟩ := hcond
  rw [DMq, if_pos rfl] at h4
  have h5 : (999/10 : ℚ) ≤ thq table gs i i := by
    rw [show fle (F.fin (999/10)) (F.fin (thq table gs i i)) =
      decide ((999/10 : ℚ) ≤ thq table gs i i) from rfl] at h4
    exact of_decide_eq_true h4
  have h6 : thq table gs i i < 999/10 := by
    rw [thq]; exact data_th_lt _ _ htab
  linarith

/-- Claim C2, witness: self-exclusion on a concrete one-galaxy sample with the
default threshold table. -/
theorem C2_self_exclusion_witness : (0 : ℕ) ∉ cmnnIndex table068 gsSingle 5 0 :=
  C2_self_exclusion table068 gsSingle 5 0 (by decide)

/-- Claim C4: the degrees-of-freedom entry equals the count of color
dimensions present in both galaxies, with no hypotheses on the color values;
and the count depends only on the presence masks, not on the numeric values. -/
theorem C4_dof_count (q r : Galaxy) :
    DOFi q r = (countValid q r : ℤ) ∧
    ∀ q2 r2 : Galaxy, (∀ k, isFin (q2.c k) = isFin (q.c k)) →
      (∀ k, isFin (r2.c k) = isFin (r.c k)) → countValid q2 r2 = countValid q r := by
  refine ⟨DOFi_eq q r, ?_⟩
  intro q2 r2 hq hr
  rw [countValid, countValid]
  congr 1
  apply Finset.filter_congr
  intro k _
  rw [hq k, hr k]

/-- Claim C4, witness: two galaxies with complementary missing bands share
three valid dimensions, and changing the numeric values while keeping the
masks leaves the count unchanged. -/
theorem C4_dof_count_witness :
    DOFi gMissA gMissB = (3 : ℤ) ∧
    countValid gMissA2 gMissB2 = countValid gMissA gMissB := by
  constructor
  · rw [(C4_dof_count gMissA gMissB).1]; decide
  · exact (C4_dof_count gMissA gMissB).2 gMissA2 gMissB2 (by decide) (by decide)

/-- Claim C5: for any percent point function, the built table has entry zero
exactly zero, and it is non-decreasing over indices 0..5 provided the ppf is
non-decreasing on 1..5 and nonnegative at 1 (facts of the chi-square quantile
for every confidence level in the open unit interval). -/
theorem C5_threshold_table (ppf : ℕ → ℚ)
    (hmono : ∀ a b : Fin 6, 1 ≤ (a : ℕ) → (a : ℕ) ≤ (b : ℕ) → ppf a ≤ ppf b)
    (hpos : 0 ≤ ppf 1) :
    cmnn_thresh_table ppf 0 = 0 ∧
    ∀ d e : Fin 6, (d : ℕ) ≤ (e : ℕ) →
      cmnn_thresh_table ppf d ≤ cmnn_thresh_table ppf e := by
  constructor
  · rw [cmnn_thresh_table, if_pos rfl]
  · intro d e hde
    simp only [cmnn_thresh_table]
    split_ifs with hd he he
    · exact le_refl 0
    · have h1 : 1 ≤ (e : ℕ) := Nat.one_le_iff_ne_zero.mpr he
      refine le_trans hpos (hmono 1 e (by norm_num) ?_)
      simpa using h1
    · omega
    · exact hmono d e (Nat.one_le_iff_ne_zero.mpr hd) hde

/-- Claim C5, witness: the default-configuration table satisfies both
properties. -/
theorem C5_threshold_table_witness :
    cmnn_thresh_table ppf068 0 = 0 ∧
    ∀ d e : Fin 6, (d : ℕ) ≤ (e : ℕ) →
      cmnn_thresh_table ppf068 d ≤ cmnn_thresh_table ppf068 e :=
  C5_threshold_table ppf068 (by decide) (by decide)

/-- Claim C10: the degrees-of-freedom computation is symmetric in the two
galaxies for every pair, while the distance is not symmetric in general (it is
normalized by the query uncertainties only), witnessed by a concrete pair. -/
theorem C10_dof_symmetric :
    (∀ q r : Galaxy, dofSum q r = dofSum r q) ∧
    pairDM gZero gWide ≠ pairDM gWide gZero := by
  refine ⟨dofSum_symm, ?_⟩
  decide

/-- Claim C10, witness: symmetry instantiated on a concrete pair with missing
bands. -/
theorem C10_dof_symmetric_witness : dofSum gMissA gMissB = dofSum gMissB gMissA :=
  C10_dof_symmetric.1 gMissA gMissB

/-- Claim C3: when colors are present-or-missing and the query uncertainty of
every valid dimension is present and nonzero, the computed distance is exactly
the spec formula: the finite sum over valid dimensions of
(c_q - c_r)^2 / e_q^2, normalized by the query uncertainty only, with missing
dimensions contributing nothing. -/
theorem C3_distance_formula (q r : Galaxy)
    (hq : ∀ k, isFin (q.c k) = true ∨ q.c k = F.nan)
    (hr : ∀ k, isFin (r.c k) = true ∨ r.c k = F.nan)
    (he : ∀ k, isFin (q.c k) = true → isFin (r.c k) = true →
      isFin (q.ce k) = true ∧ finVal (q.ce k) ≠ 0) :
    pairDM q r = F.fin (specDM q r) := by
  have hterm : ∀ k : Fin 5, dmterm q r k =
      if isFin (q.c k) && isFin (r.c k)
      then F.fin ((finVal (q.c k) - finVal (r.c k))^2 / (finVal (q.ce k))^2)
      else F.nan := by
    intro k
    rcases hq k with hqk | hqk
    · rcases hr k with hrk | hrk
      · obtain ⟨a, ha⟩ := isFin_iff.mp hqk
        obtain ⟨b, hb⟩ := isFin_iff.mp hrk
        obtain ⟨hef, hev⟩ := he k hqk hrk
        obtain ⟨e, hee⟩ := isFin_iff.mp hef
        have he0 : e ≠ 0 := by rw [hee] at hev; simpa [finVal] using hev
        rw [dmterm_valid q r k a b e ha hb hee he0,
          if_pos (by rw [Bool.and_eq_true]; exact ⟨hqk, hrk⟩), ha, hb, hee]
        simp [finVal]
      · rw [dmterm_nan q r k (Or.inr hrk), if_neg (by simp [hrk, isFin])]
    · rw [dmterm_nan q r k (Or.inl hqk), if_neg (by simp [hqk, isFin])]
  have hfin : ∀ x ∈ List.ofFn (dmterm q r), (∃ a : ℚ, x = F.fin a) ∨ x = F.nan := by
    intro x hx
    rw [List.mem_ofFn] at hx
    obtain ⟨k, rfl⟩ := hx
    rw [hterm k]
    by_cases hk : (isFin (q.c k) && isFin (r.c k)) = true
    · exact Or.inl ⟨_, by rw [if_pos hk]⟩
    · exact Or.inr (by rw [if_neg hk])
  rw [pairDM, nansum_fin _ hfin, List.map_ofFn, List.sum_ofFn]
  congr 1
  rw [specDM]
  apply Finset.sum_congr rfl
  intro k _
  rw [Function.comp_apply, hterm k]
  by_cases hk : (isFin (q.c k) && isFin (r.c k)) = true
  · rw [if_pos hk, if_pos hk]; rfl
  · rw [if_neg hk, if_neg hk]; rfl

/-- Claim C3, witness: two galaxies with complementary missing bands give the
finite distance 2 over their three shared dimensions. -/
theorem C3_distance_formula_witness : pairDM gMissA gMissB = F.fin 2 := by
  have h := C3_distance_formula gMissA gMissB (by decide) (by decide) (by decide)
  rw [h]
  decide

/-- Every member of the CMNN subset is a sample index. -/
lemma cmnnIndex_mem_lt (table : ℕ → ℚ) (gs : List Galaxy) (minD : ℤ) (i : ℕ) :
    ∀ j ∈ cmnnIndex table gs minD i, j < gs.length := by
  intro j hj
  simp only [cmnnIndex, List.mem_filter, List.mem_range] at hj
  exact hj.1

/-- Claim C6: a query whose CMNN subset is empty gets the NaN missing-sentinel
written into both output fields, the driver output still covers the whole
sample, and every other processed galaxy still receives its own estimate. -/
theorem C6_empty_subset_outputs (table : ℕ → ℚ) (std : List ℚ → ℚ)
    (pick : List ℕ → ℕ) (gs : List Galaxy) (minD : ℤ) (Ncalc : ℕ) (i : ℕ)
    (hi : i < gs.length) (hN : i < Ncalc)
    (hempty : cmnnIndex table gs minD i = []) :
    (runDriver table std pick gs minD Ncalc)[i]? = some (F.nan, F.nan) ∧
    (runDriver table std pick gs minD Ncalc).length = gs.length ∧
    ∀ j : ℕ, j < gs.length → j < Ncalc →
      (runDriver table std pick gs minD Ncalc)[j]? =
        some (estimateAt table std pick gs minD j) := by
  have hget : ∀ j : ℕ, j < gs.length → j < Ncalc →
      (runDriver table std pick gs minD Ncalc)[j]? =
        some (estimateAt table std pick gs minD j) := by
    intro j hj hjN
    rw [runDriver, List.getElem?_map, List.getElem?_range hj]
    simp [hjN]
  refine ⟨?_, by simp [runDriver], hget⟩
  rw [hget i hi hN]
  simp [estimateAt, hempty]

/-- Claim C6, witness: a one-galaxy sample has an empty subset (the query is
self-excluded) and receives the NaN sentinel pair. -/
theorem C6_empty_subset_outputs_witness :
    (runDriver table068 std0 pick0 gsSingle 5 1)[0]? = some (F.nan, F.nan) ∧
    (runDriver table068 std0 pick0 gsSingle 5 1).length = gsSingle.length ∧
    ∀ j : ℕ, j < gsSingle.length → j < 1 →
      (runDriver table068 std0 pick0 gsSingle 5 1)[j]? =
        some (estimateAt table068 std0 pick0 gsSingle 5 j) :=
  C6_empty_subset_outputs table068 std0 pick0 gsSingle 5 1 0 (by decide) (by decide)
    (by decide)

/-- Claim C7, counterexample: with the invalid configuration minD = 0 (below
the valid range starting at 1) the run is not rejected: both galaxies of a
two-galaxy sample are estimated and both output fields are written with
estimate pairs. -/
theorem C7_counterexample :
    runDriver table068 std0 pick0 gsClose 0 2 =
      [(F.fin 2, F.fin 0), (F.fin (1/2), F.fin 0)] := by decide

/-- Claim C7, amended: the source performs no configuration validation at all;
for every configuration, valid or not, the driver runs to completion and
writes an output for every processed galaxy. -/
theorem C7_no_validation (table : ℕ → ℚ) (std : List ℚ → ℚ) (pick : List ℕ → ℕ)
    (gs : List Galaxy) (minD : ℤ) (Ncalc : ℕ) :
    (runDriver table std pick gs minD Ncalc).length = gs.length ∧
    ∀ j : ℕ, j < gs.length → j < Ncalc →
      (runDriver table std pick gs minD Ncalc)[j]? =
        some (estimateAt table std pick gs minD j) := by
  refine ⟨by simp [runDriver], ?_⟩
  intro j hj hjN
  rw [runDriver, List.getElem?_map, List.getElem?_range hj]
  simp [hjN]

/-- Claim C7, witness: the amended statement instantiated on the invalid
configuration minD = 0. -/
theorem C7_no_validation_witness :
    (runDriver table068 std0 pick0 gsClose 0 2).length = gsClose.length ∧
    ∀ j : ℕ, j < gsClose.length → j < 2 →
      (runDriver table068 std0 pick0 gsClose 0 2)[j]? =
        some (estimateAt table068 std0 pick0 gsClose 0 j) :=
  C7_no_validation table068 std0 pick0 gsClose 0 2

/-- Claim C8, counterexample: a query with a zero uncertainty in its first
color dimension and a reference whose first color differs produces the
distance positive infinity, and the degenerate dimension still counts toward
the degrees of freedom (DOF = 5). -/
theorem C8_counterexample :
    pairDM gZeroErr gOne = F.pinf ∧ DOFi gZeroErr gOne = 5 := by decide

/-- Claim C8, amended: a zero query uncertainty is not detected: in a
dimension where both colors are present and differ it makes the pairwise
distance positive infinity, the dimension still counts toward DOF (which
equals the full both-present count and is at least one), and the infinite
distance never satisfies the upper-threshold comparison, so such a pair is
never selected. -/
theorem C8_zero_uncertainty (q r : Galaxy) (k : Fin 5)
    (hq : ∀ m, isFin (q.c m) = true ∨ q.c m = F.nan)
    (hr : ∀ m, isFin (r.c m) = true ∨ r.c m = F.nan)
    (hk : isFin (q.c k) = true) (hk2 : isFin (r.c k) = true)
    (hdiff : finVal (q.c k) ≠ finVal (r.c k)) (hce : q.ce k = F.fin 0) :
    pairDM q r = F.pinf ∧ DOFi q r = (countValid q r : ℤ) ∧
    1 ≤ countValid q r ∧ ∀ t : ℚ, fle (pairDM q r) (F.fin t) = false := by
  obtain ⟨a, ha⟩ := isFin_iff.mp hk
  obtain ⟨b, hb⟩ := isFin_iff.mp hk2
  have hab : a ≠ b := by rw [ha, hb] at hdiff; simpa [finVal] using hdiff
  have hpinf : pairDM q r = F.pinf := by
    rw [pairDM]
    apply nansum_pinf
    · intro x hx
      rw [List.mem_ofFn] at hx
      obtain ⟨m, rfl⟩ := hx
      exact dmterm_ne_ninf q r m (hq m) (hr m)
    · rw [List.mem_ofFn]
      exact ⟨k, dmterm_pinf q r k a b ha hb hab hce⟩
  have hcount : 1 ≤ countValid q r := by
    rw [countValid]
    refine Finset.card_pos.mpr ⟨k, Finset.mem_filter.mpr ⟨Finset.mem_univ k, ?_⟩⟩
    rw [Bool.and_eq_true]
    exact ⟨hk, hk2⟩
  refine ⟨hpinf, DOFi_eq q r, hcount, ?_⟩
  intro t
  rw [hpinf]
  rfl

/-- Claim C8, witness: the amended statement instantiated on the concrete
zero-uncertainty query. -/
theorem C8_zero_uncertainty_witness :
    pairDM gZeroErr gOne = F.pinf ∧
    DOFi gZeroErr gOne = (countValid gZeroErr gOne : ℤ) ∧
    1 ≤ countValid gZeroErr gOne ∧
    ∀ t : ℚ, fle (pairDM gZeroErr gOne) (F.fin t) = false :=
  C8_zero_uncertainty gZeroErr gOne 0 (by decide) (by decide) (by decide)
    (by decide) (by decide) (by decide)

/-- Claim C9, counterexample: with the processing cap Ncalc = 1 on a
two-galaxy sample, the second galaxy keeps the initialization value -1.0 in
both output fields; its uncertainty field is negative and is not the NaN
missing-sentinel, contradicting the claimed output contract. -/
theorem C9_counterexample :
    (runDriver table068 std0 pick0 gsClose 5 1)[1]? =
      some (F.fin (-1), F.fin (-1)) ∧ (-1 : ℚ) < 0 := by decide

/-- Claim C9, amended: provided np.std is nonnegative and np.random.choice
returns a member of its argument, every galaxy processed within the cap ends
with either the NaN sentinel pair or a real estimate (a sample galaxy's true
redshift) together with a nonnegative real uncertainty; galaxies beyond the
cap retain the initialization value -1.0 in both fields. -/
theorem C9_output_contract (table : ℕ → ℚ) (std : List ℚ → ℚ)
    (pick : List ℕ → ℕ) (gs : List Galaxy) (minD : ℤ) (Ncalc : ℕ)
    (hstd : ∀ l : List ℚ, 0 ≤ std l)
    (hpick : ∀ l : List ℕ, l ≠ [] → pick l ∈ l) :
    (runDriver table std pick gs minD Ncalc).length = gs.length ∧
    ∀ j : ℕ, j < gs.length →
      ((j < Ncalc →
        (runDriver table std pick gs minD Ncalc)[j]? = some (F.nan, F.nan) ∨
        ∃ m : ℕ, m < gs.length ∧ ∃ e : ℚ, 0 ≤ e ∧
          (runDriver table std pick gs minD Ncalc)[j]? =
            some (F.fin (tzAt gs m), F.fin e)) ∧
       (¬ j < Ncalc →
        (runDriver table std pick gs minD Ncalc)[j]? =
          some (F.fin (-1), F.fin (-1)))) := by
  refine ⟨by simp [runDriver], ?_⟩
  intro j hj
  constructor
  · intro hjN
    rw [runDriver, List.getElem?_map, List.getElem?_range hj]
    simp only [Option.map_some', if_pos hjN]
    by_cases hemp : cmnnIndex table gs minD j = []
    · left; simp [estimateAt, hemp]
    · right
      have hlen0 : 0 < (cmnnIndex table gs minD j).length := List.length_pos.mpr hemp
      have hpk : pick (cmnnIndex table gs minD j) ∈ cmnnIndex table gs minD j :=
        hpick _ hemp
      refine ⟨pick (cmnnIndex table gs minD j),
        cmnnIndex_mem_lt table gs minD j _ hpk,
        std ((cmnnIndex table gs minD j).map (tzAt gs)), hstd _, ?_⟩
      simp [estimateAt, hlen0]
  · intro hjN
    rw [runDriver, List.getElem?_map, List.getElem?_range hj]
    simp [hjN]

/-- Claim C9, witness: the amended contract instantiated on a concrete run
with cap 1 on a two-galaxy sample, covering both a processed and an
unprocessed galaxy; the hypotheses are discharged with the deterministic
stand-ins. -/
theorem C9_output_contract_witness :
    (runDriver table068 std0 pick0 gsClose 5 1).length = gsClose.length ∧
    ∀ j : ℕ, j < gsClose.length →
      ((j < 1 →
        (runDriver table068 std0 pick0 gsClose 5 1)[j]? = some (F.nan, F.nan) ∨
        ∃ m : ℕ, m < gsClose.length ∧ ∃ e : ℚ, 0 ≤ e ∧
          (runDriver table068 std0 pick0 gsClose 5 1)[j]? =
            some (F.fin (tzAt gsClose m), F.fin e)) ∧
       (¬ j < 1 →
        (runDriver table068 std0 pick0 gsClose 5 1)[j]? =
          some (F.fin (-1), F.fin (-1)))) :=
  C9_output_contract table068 std0 pick0 gsClose 5 1 (fun _ => le_refl 0)
    (fun l hl => by
      cases l with
      | nil => exact absurd rfl hl
      | cons a t => simp [pick0])

end CMNN
